import Mathlib

/-!
Verification of the gob wire engine (`rust-gob`).

This file shallowly embeds the byte-level core of the library:

* `src/internal/gob.rs` — the varint codec (`Message::read_uint`,
  `read_int`, `read_float`, `write_uint`, `write_int`, `write_float`)
  and the stream framing (`Stream::write_section`,
  `Stream::read_section_len`, `Stream::read_section`);
* `src/de/mod.rs` — `StreamDeserializer::deserializer`, the loop that
  consumes type-definition sections and hands out value cursors;
* `src/internal/de/value.rs` — the singleton-vs-struct dispatch of
  `ValueDeserializer::deserialize_any`;
* `src/internal/ser/serialize_variant.rs` — the writer-side enum
  variant framing.

Bytes are modelled as `Nat` (well-formedness `b < 256` is carried as a
hypothesis where a claim quantifies over raw inputs); `u64` values as
`Nat` with explicit `% 2^64`; `i64` values as `Int` with two's-complement
conversions made explicit.  The underlying `Read`er feeding the stream is
modelled as a list of chunks (each chunk one successful `read` call; an
empty chunk or an exhausted list is a zero-length read, i.e. EOF).

The ring buffer (`internal/utils.rs`) and the dictionary/wire-type
machinery (`internal/types.rs`, the serde-driven decoders and encoders)
are not part of the provided sources; where a claim needs them they are
modelled from the specification, and marked as such in their doc comments.
-/

namespace Gob

/-- Outcome of a `Message` read: mirrors `MessageReadError` from
`src/internal/gob.rs` plus the success case carrying the unread tail of
the buffer.  `crash` models a Rust panic inside the `bytes` crate
(`Buf::get_uint_be` panics when asked for more than 8 bytes); the source
code's error enum cannot represent it, but the behaviour exists. -/
inductive ReadResult (α : Type) where
  | ok (value : α) (rest : List Nat)
  | incomplete
  | parse (reason : String)
  | crash
deriving DecidableEq, Repr

/-- Map the success value of a read, keeping errors as they are
(used to build `read_int` / `read_float` on top of `read_uint`,
exactly as the `?` operator threads errors in the source). -/
def ReadResult.mapValue {α β : Type} (f : α → β) : ReadResult α → ReadResult β
  | .ok v rest => .ok (f v) rest
  | .incomplete => .incomplete
  | .parse r => .parse r
  | .crash => .crash

/-- Big-endian byte list of the low `w` bytes of `n`
(`BufMut::put_uint_be(n, w)`). -/
def natToBytesBE : Nat → Nat → List Nat
  | 0, _ => []
  | w + 1, n => natToBytesBE w (n / 256) ++ [n % 256]

/-- Big-endian value of a byte list (`Buf::get_uint_be` reading
`l.length` bytes). -/
def bytesToNatBE (l : List Nat) : Nat :=
  l.foldl (fun acc b => acc * 256 + b) 0

/-- `Message::read_uint` (src/internal/gob.rs lines 47-60): a byte `b < 128`
is the value itself; otherwise `L = !b + 1` (u8 arithmetic, so `L = 256 - b`)
further bytes form a big-endian integer.  Fewer available bytes than
required is `Incomplete`; `get_uint_be` with `L > 8` panics (`crash`). -/
def read_uint (buf : List Nat) : ReadResult Nat :=
  match buf with
  | [] => .incomplete
  | b :: rest =>
    if b < 128 then .ok b rest
    else
      let len := 256 - b
      if rest.length < len then .incomplete
      else if 8 < len then .crash
      else .ok (bytesToNatBE (rest.take len)) (rest.drop len)

/-- `u64` bit pattern reinterpreted as `i64` (the `as i64` cast). -/
def u64ToI64 (u : Nat) : Int :=
  if u < 2 ^ 63 then (u : Int) else (u : Int) - 2 ^ 64

/-- `i64` bit pattern reinterpreted as `u64` (the `as u64` cast). -/
def i64ToU64 (n : Int) : Nat :=
  (n % (2 ^ 64 : Int)).toNat

/-- `Message::read_int` (src/internal/gob.rs lines 62-72): zig-zag decode of
`read_uint` — low bit is the sign, `!sint` on a negative result
(`!x = -x - 1` on `i64`). -/
def read_int (buf : List Nat) : ReadResult Int :=
  (read_uint buf).mapValue fun bits =>
    let sint := u64ToI64 (bits >>> 1)
    if bits &&& 1 = 0 then sint else -sint - 1

/-- `Message::read_float` (src/internal/gob.rs lines 74-78), at the level of
IEEE-754 bit patterns: the value is the byte-swap of the decoded varint.
(`f64::from_bits` / `f64::to_bits` are mutually inverse bijections between
`f64` values and 64-bit patterns in Rust, which preserves NaN payloads, so
reasoning on patterns loses nothing.) -/
def read_float (buf : List Nat) : ReadResult Nat :=
  (read_uint buf).mapValue fun bits => bytesToNatBE (natToBytesBE 8 bits).reverse

/-- `u64::swap_bytes`: reverse the eight bytes of the value. -/
def swapBytes64 (n : Nat) : Nat :=
  bytesToNatBE (natToBytesBE 8 n).reverse

/-- Bit length of a `u64` computed by structural recursion on a 64-step
fuel (so that it reduces definitionally); `u64::leading_zeros n`
is `64 - bitLen64 n`. -/
def bitLenAux : Nat → Nat → Nat
  | 0, _ => 0
  | fuel + 1, n => if n = 0 then 0 else bitLenAux fuel (n / 2) + 1

/-- Bit length of a `u64`. -/
def bitLen64 (n : Nat) : Nat := bitLenAux 64 n

/-- `u64::leading_zeros` for `n < 2^64`. -/
def leadingZeros64 (n : Nat) : Nat := 64 - bitLen64 n

/-- `Message::write_uint` (src/internal/gob.rs lines 100-109): values below
128 in one byte; otherwise `nbytes = 8 - leading_zeros/8` payload bytes
big-endian, preceded by the header byte `!(nbytes - 1)` (u8 complement,
i.e. `255 - (nbytes - 1)`). -/
def write_uint (n : Nat) : List Nat :=
  if n < 128 then [n]
  else
    let nbytes := 8 - leadingZeros64 n / 8
    (255 - (nbytes - 1)) :: natToBytesBE nbytes n

/-- `Message::write_int` (src/internal/gob.rs lines 119-128): zig-zag encode.
`!(n as u64) << 1 | 1` for negative `n`, `(n as u64) << 1` otherwise
(shifts on `u64` wrap modulo `2^64`). -/
def write_int (n : Int) : List Nat :=
  let u : Nat :=
    if n < 0 then ((2 ^ 64 - 1 - i64ToU64 n) <<< 1) % 2 ^ 64 ||| 1
    else (i64ToU64 n <<< 1) % 2 ^ 64
  write_uint u

/-- `Message::write_float` (src/internal/gob.rs lines 130-134) at the level
of bit patterns: the varint of the byte-swapped IEEE-754 pattern. -/
def write_float (bits : Nat) : List Nat :=
  write_uint (swapBytes64 bits)

/-- `Stream::write_section` (src/internal/gob.rs lines 175-185): the signed
varint of `type_id` (at most 9 bytes, written into a 9-byte scratch), then
the unsigned varint of `payload.len() + width(type_id)` in front, then the
payload.  The `usize → u64` cast is the identity below `2^64`. -/
def write_section (type_id : Int) (payload : List Nat) : List Nat :=
  let idBytes := write_int type_id
  let lenBytes := write_uint ((payload.length + idBytes.length) % 2 ^ 64)
  lenBytes ++ idBytes ++ payload

/-- Errors surfaced by the framing layer (`Error` in the source, restricted
to the cases the code can produce): `unexpectedEof` is
`io::ErrorKind::UnexpectedEof`, `parseErr` is `Error::deserialize`, and
`crashed` records a Rust panic bubbling out of `bytes`. -/
inductive SectionError where
  | unexpectedEof
  | parseErr (reason : String)
  | crashed
deriving DecidableEq, Repr

/-- Modelled from the spec (§4.C ring buffer, §2 component C): the ring
buffer's visible window is a plain byte list (`bytes()`), `advance`
drops from the front, and `read_from(reader)` appends the reader's next
chunk.  The reader itself is the list of chunks its successive `read`
calls deliver; an exhausted list (or an empty chunk) is a zero-length
read, which the framing layer treats as EOF.  `readFrom` returns the
number of bytes delivered together with the new window and the rest of
the reader.  (`internal/utils.rs` is not among the provided sources.) -/
def readFrom (buf : List Nat) (pending : List (List Nat)) :
    Nat × List Nat × List (List Nat) :=
  match pending with
  | [] => (0, buf, [])
  | c :: rest => (c.length, buf ++ c, rest)

/-- Modelled from the spec (§4.C, §4.D read-side step 3): `read_from_exact`
pulls exactly `needed` more bytes from the reader into the buffer, and
raises `UnexpectedEof` if the reader ends first (matching the spec's
"EOF inside a section is `UnexpectedEof`").  A chunk longer than the
shortfall keeps its surplus on the reader side. -/
def readFromExact : List (List Nat) → Nat → Except SectionError (List Nat × List (List Nat))
  | pending, needed =>
    if needed = 0 then .ok ([], pending)
    else
      match pending with
      | [] => .error .unexpectedEof
      | c :: rest =>
        if c.length = 0 then .error .unexpectedEof
        else if needed ≤ c.length then
          .ok (c.take needed, if needed < c.length then c.drop needed :: rest else rest)
        else
          (readFromExact rest (needed - c.length)).map fun got => (c ++ got.1, got.2)

/-- The retry loop inside `Stream::read_section_len`
(src/internal/gob.rs lines 196-222): parse the length varint against the
current window; on success consume the parsed bytes and return; on
`Incomplete` pull another chunk, turning a zero-length read into
`UnexpectedEof`; a `Parse` error is surfaced as a deserialize error. -/
def readSectionLenLoop : List Nat → List (List Nat) →
    Except SectionError (Nat × List Nat × List (List Nat))
  | buf, pending =>
    match read_uint buf with
    | .ok len rest => .ok (len, rest, pending)
    | .parse r => .error (.parseErr r)
    | .crash => .error .crashed
    | .incomplete =>
      match pending with
      | [] => .error .unexpectedEof
      | c :: rest =>
        if c.length = 0 then .error .unexpectedEof
        else readSectionLenLoop (buf ++ c) rest

/-- `Stream::read_section_len` (src/internal/gob.rs lines 189-223): an empty
window with a zero-length read is clean EOF (`none`); otherwise the loop
above runs.  Returns the parsed section length together with the window
(already advanced past the length varint) and the rest of the reader. -/
def read_section_len (buf : List Nat) (pending : List (List Nat)) :
    Except SectionError (Option Nat × List Nat × List (List Nat)) :=
  if buf.length = 0 then
    let r := readFrom buf pending
    if r.1 = 0 then .ok (none, r.2.1, r.2.2)
    else (readSectionLenLoop r.2.1 r.2.2).map fun s => (some s.1, s.2.1, s.2.2)
  else
    (readSectionLenLoop buf pending).map fun s => (some s.1, s.2.1, s.2.2)

/-- `Stream::read_section` (src/internal/gob.rs lines 225-243): read the
section length, fill the window up to that many bytes, parse the signed
type-id varint off the front and consume it.  Returns
`some (type_id, payload_len)` with the window positioned at the payload
(consumption of the payload itself is deferred to the caller), or `none`
on clean EOF.  A failing type-id parse is reported as a deserialize
error (`"failed to read type id"` in the source message). -/
def read_section (buf : List Nat) (pending : List (List Nat)) :
    Except SectionError (Option (Int × Nat) × List Nat × List (List Nat)) :=
  match read_section_len buf pending with
  | .error e => .error e
  | .ok (none, buf', pending') => .ok (none, buf', pending')
  | .ok (some msgLen, buf1, pending1) =>
    let filled : Except SectionError (List Nat × List (List Nat)) :=
      if buf1.length < msgLen then
        (readFromExact pending1 (msgLen - buf1.length)).map fun got =>
          (buf1 ++ got.1, got.2)
      else .ok (buf1, pending1)
    match filled with
    | .error e => .error e
    | .ok (buf2, pending2) =>
      match read_int buf2 with
      | .ok typeId rest =>
        .ok (some (typeId, msgLen - (buf2.length - rest.length)), rest, pending2)
      | .crash => .error .crashed
      | _ => .error (.parseErr "failed to read type id")

/-- Modelled from the spec (§3 data model): `CommonType { name, id }`
carried by every wire type (`internal/types.rs` is not among the provided
sources). -/
structure CommonType where
  name : String
  id : Int
deriving DecidableEq, Repr

/-- Modelled from the spec (§3 data model): the `WireType` dictionary value,
a tagged variant with arms `Builtin`, `Array`, `Slice`, `Map`, `Struct`,
each carrying a `CommonType`. -/
inductive WireType where
  | builtin (common : CommonType)
  | arrayT (common : CommonType) (elem : Int) (len : Int)
  | sliceT (common : CommonType) (elem : Int)
  | mapT (common : CommonType) (key value : Int)
  | structT (common : CommonType) (fields : List (String × Int))
deriving DecidableEq, Repr

/-- The `CommonType` of a wire type (`WireType::common`). -/
def WireType.common : WireType → CommonType
  | .builtin c => c
  | .arrayT c _ _ => c
  | .sliceT c _ => c
  | .mapT c _ _ => c
  | .structT c _ => c

/-- Modelled from the spec (§4.E type dictionary): the dictionary is a list
of wire types looked up by the id carried in their `CommonType`; claims
quantify over its contents, so the built-in seeding is left to the
context. -/
abbrev Types := List WireType

/-- Modelled from the spec (§4.E): `lookup(id)` finds the entry whose
`CommonType.id` matches. -/
def Types.lookup (ts : Types) (id : Int) : Option WireType :=
  List.find? (fun wt => wt.common.id == id) ts

/-- Modelled from the spec (§4.E): `insert` appends under the id carried by
the wire type; re-inserting a live id is silently a no-op. -/
def Types.insert (ts : Types) (wt : WireType) : Types :=
  if (ts.lookup wt.common.id).isSome then ts else ts ++ [wt]

/-- Errors produced by the deserializer loop: framing errors, serde custom
errors (`Error::custom`, carrying the exact message), and fuel
exhaustion of the explicitly-bounded loop model. -/
inductive DeError where
  | fromStream (e : SectionError)
  | custom (msg : String)
  | outOfFuel
deriving DecidableEq, Repr

/-- State of a `StreamDeserializer` (src/de/mod.rs lines 17-22): the type
dictionary, the ring-buffer window, the reader, and `prev_len` (the
length of the most recently returned value payload, consumed lazily on
the next call). -/
structure DeState where
  defs : Types
  buf : List Nat
  pending : List (List Nat)
  prevLen : Option Nat

/-- The section loop of `StreamDeserializer::deserializer`
(src/de/mod.rs lines 53-83).  The serde-driven decoding of a `WireType`
payload (`WireType::deserialize` via `FieldValueDeserializer`, whose
sources are not provided) is a parameter `decodeWire`, applied to the
current dictionary and the first `len` window bytes exactly as the
source applies it to `&self.buffer.bytes()[..len]`.  A value section
(`type_id >= 0`) returns `(type_id, len)` with the window at the
payload; a type-definition section is checked against the `-type_id`
rule before insertion.  The loop is given explicit fuel; the final state
is returned alongside the outcome so that dictionary (non-)mutation is
observable. -/
def deserializerLoop (decodeWire : Types → List Nat → Except String WireType) :
    Nat → Types → List Nat → List (List Nat) →
    Types × List Nat × List (List Nat) × Except DeError (Option (Int × Nat))
  | 0, defs, buf, pending => (defs, buf, pending, .error .outOfFuel)
  | fuel + 1, defs, buf, pending =>
    match read_section buf pending with
    | .error e => (defs, buf, pending, .error (.fromStream e))
    | .ok (none, buf', pending') => (defs, buf', pending', .ok none)
    | .ok (some (typeId, len), buf', pending') =>
      if 0 ≤ typeId then (defs, buf', pending', .ok (some (typeId, len)))
      else
        match decodeWire defs (buf'.take len) with
        | .error r => (defs, buf', pending', .error (.custom r))
        | .ok wt =>
          if -typeId ≠ wt.common.id then
            (defs, buf', pending', .error (.custom "type id mismatch"))
          else
            deserializerLoop decodeWire fuel (defs.insert wt) (buf'.drop len) pending'

/-- `StreamDeserializer::deserializer` (src/de/mod.rs lines 46-84): first
lazily consume the previously returned payload (`advance(prev_len)`),
then run the section loop.  On returning a value cursor the source sets
`prev_len = Some(len)`; otherwise the field keeps its old value. -/
def deserializer (decodeWire : Types → List Nat → Except String WireType)
    (fuel : Nat) (st : DeState) : DeState × Except DeError (Option (Int × Nat)) :=
  let buf0 := match st.prevLen with
    | some l => st.buf.drop l
    | none => st.buf
  let r := deserializerLoop decodeWire fuel st.defs buf0 st.pending
  let prevLen' := match r.2.2.2 with
    | .ok (some (_, len)) => some len
    | _ => st.prevLen
  (⟨r.1, r.2.1, r.2.2.1, prevLen'⟩, r.2.2.2)

/-- The decision taken by `ValueDeserializer::deserialize_any`
(src/internal/de/value.rs lines 37-54) before it hands off to a decoder
whose sources are not provided: delegate a `Struct` descriptor to the
struct codec with the message untouched, or strip the singleton `0`
prefix and delegate to the field-value decoder. -/
inductive ValueDispatch where
  | toStruct (common : CommonType) (fields : List (String × Int)) (buf : List Nat)
  | toFieldValue (typeId : Int) (buf : List Nat)
  | failed (msg : String)
  | incompleteErr
  | crashed
deriving DecidableEq, Repr

/-- `ValueDeserializer::deserialize_any` (src/internal/de/value.rs lines
37-54), up to the delegated decoders: if the dictionary resolves
`type_id` to a `Struct` descriptor, delegate immediately (no prefix
read); otherwise read a uint and fail with
`"neither a singleton nor a struct value"` unless it is `0`, in which
case delegate to the field-value decoder on the remaining bytes. -/
def deserialize_any (typeId : Int) (defs : Types) (buf : List Nat) : ValueDispatch :=
  match defs.lookup typeId with
  | some (.structT common fields) => .toStruct common fields buf
  | _ =>
    match read_uint buf with
    | .ok v rest =>
      if v ≠ 0 then .failed "neither a singleton nor a struct value"
      else .toFieldValue typeId rest
    | .incomplete => .incompleteErr
    | .parse r => .failed r
    | .crash => .crashed

/-- `SerializeVariantValue::write_header`
(src/internal/ser/serialize_variant.rs lines 53-56): append
`write_uint(variant_idx as u64 + 1)` to the value buffer of the
serialization context (`idx < 2^32`, so the `u64` addition cannot
wrap). -/
def variantWriteHeader (out : List Nat) (idx : Nat) : List Nat :=
  out ++ write_uint (idx + 1)

/-- `SerializeVariantValue::write_footer` (lines 58-61): append
`write_uint(0)`. -/
def variantWriteFooter (out : List Nat) : List Nat :=
  out ++ write_uint 0

/-- `SerializeVariantValue::serialize_newtype`
(src/internal/ser/serialize_variant.rs lines 63-92): header first, then
the variant's payload via the field-value serializer (whose sources are
not provided; it is the parameter `body`, a transformation of the value
buffer), then the footer.  The `as_newtype_variant` schema check sits
between header and body, as in the source. -/
def serializeNewtype (out : List Nat) (idx : Nat) (hasNewtypeArm : Bool)
    (body : List Nat → Except String (List Nat)) : Except String (List Nat) :=
  let c1 := variantWriteHeader out idx
  if hasNewtypeArm then
    match body c1 with
    | .error e => .error e
    | .ok c2 => .ok (variantWriteFooter c2)
  else .error "variant type mismatch, expected newtype variant"

/-- The struct-variant path: `SerializeVariantValue::serialize_struct`
(lines 94-109) writes the header, the inner `SerializeStructValue`
(sources not provided; parameter `fieldsSer`) writes the delta-encoded
fields, and `SerializeStructVariantValue::end`
(src/internal/ser/serialize_variant.rs lines 135-140) appends
`write_uint(0)` after the inner `end`. -/
def serializeStructVariant (out : List Nat) (idx : Nat)
    (fieldsSer : List Nat → Except String (List Nat)) : Except String (List Nat) :=
  match fieldsSer (variantWriteHeader out idx) with
  | .error e => .error e
  | .ok c2 => .ok (c2 ++ write_uint 0)

/-! ### Helper lemmas: big-endian byte lists -/

theorem natToBytesBE_length (w n : Nat) : (natToBytesBE w n).length = w := by
  induction w generalizing n with
  | zero => rfl
  | succ w ih => simp [natToBytesBE, ih]

theorem natToBytesBE_mem_lt (w n : Nat) : ∀ b ∈ natToBytesBE w n, b < 256 := by
  induction w generalizing n with
  | zero => simp [natToBytesBE]
  | succ w ih =>
    intro b hb
    simp only [natToBytesBE, List.mem_append, List.mem_singleton] at hb
    rcases hb with hb | hb
    · exact ih _ b hb
    · omega

theorem bytesToNatBE_append (l : List Nat) (b : Nat) :
    bytesToNatBE (l ++ [b]) = bytesToNatBE l * 256 + b := by
  simp [bytesToNatBE, List.foldl_append]

theorem bytesToNatBE_natToBytesBE (w n : Nat) :
    bytesToNatBE (natToBytesBE w n) = n % 2 ^ (8 * w) := by
  induction w generalizing n with
  | zero =>
    simp only [natToBytesBE, bytesToNatBE, List.foldl_nil, Nat.mul_zero, pow_zero]
    omega
  | succ w ih =>
    rw [natToBytesBE, bytesToNatBE_append, ih]
    have h256 : (2 : Nat) ^ (8 * (w + 1)) = 256 * 2 ^ (8 * w) := by
      rw [show 8 * (w + 1) = 8 + 8 * w by ring, pow_add]
      norm_num
    rw [h256, Nat.mod_mul]
    ring

theorem natToBytesBE_bytesToNatBE (l : List Nat) (hwf : ∀ b ∈ l, b < 256) :
    natToBytesBE l.length (bytesToNatBE l) = l := by
  induction l using List.reverseRecOn with
  | nil => rfl
  | append_singleton l b ih =>
    have hb : b < 256 := hwf b (by simp)
    have hl : ∀ x ∈ l, x < 256 := fun x hx => hwf x (by simp [hx])
    rw [bytesToNatBE_append]
    simp only [List.length_append, List.length_singleton]
    rw [natToBytesBE]
    have hdiv : (bytesToNatBE l * 256 + b) / 256 = bytesToNatBE l := by omega
    have hmod : (bytesToNatBE l * 256 + b) % 256 = b := by omega
    rw [hdiv, hmod, ih hl]

theorem bytesToNatBE_lt (l : List Nat) (hwf : ∀ b ∈ l, b < 256) :
    bytesToNatBE l < 2 ^ (8 * l.length) := by
  induction l using List.reverseRecOn with
  | nil => simp [bytesToNatBE]
  | append_singleton l b ih =>
    have hb : b < 256 := hwf b (by simp)
    have hl : ∀ x ∈ l, x < 256 := fun x hx => hwf x (by simp [hx])
    have hlt := ih hl
    rw [bytesToNatBE_append]
    simp only [List.length_append, List.length_singleton]
    have h256 : (2 : Nat) ^ (8 * (l.length + 1)) = 2 ^ (8 * l.length) * 256 := by
      rw [show 8 * (l.length + 1) = 8 * l.length + 8 by ring, pow_add]
      norm_num
    rw [h256]
    omega

theorem swapBytes64_swapBytes64 (n : Nat) (h : n < 2 ^ 64) :
    swapBytes64 (swapBytes64 n) = n := by
  unfold swapBytes64
  have hlen : (natToBytesBE 8 n).reverse.length = 8 := by
    rw [List.length_reverse, natToBytesBE_length]
  have hwf : ∀ b ∈ (natToBytesBE 8 n).reverse, b < 256 := by
    intro b hb
    exact natToBytesBE_mem_lt 8 n b (List.mem_reverse.mp hb)
  have h1 : natToBytesBE 8 (bytesToNatBE (natToBytesBE 8 n).reverse)
      = (natToBytesBE 8 n).reverse := by
    have := natToBytesBE_bytesToNatBE (natToBytesBE 8 n).reverse hwf
    rwa [hlen] at this
  rw [h1, List.reverse_reverse, bytesToNatBE_natToBytesBE]
  exact Nat.mod_eq_of_lt (by simpa using h)

/-! ### Helper lemmas: bit length and the encoder's width choice -/

theorem bitLenAux_zero (fuel : Nat) : bitLenAux fuel 0 = 0 := by
  cases fuel <;> rfl

theorem bitLenAux_spec (fuel : Nat) :
    ∀ n, n < 2 ^ fuel → 0 < n →
      1 ≤ bitLenAux fuel n ∧ bitLenAux fuel n ≤ fuel ∧
      2 ^ (bitLenAux fuel n - 1) ≤ n ∧ n < 2 ^ bitLenAux fuel n := by
  induction fuel with
  | zero =>
    intro n h h0
    norm_num at h
    omega
  | succ fuel ih =>
    intro n h h0
    rw [bitLenAux, if_neg (by omega)]
    by_cases h1 : n = 1
    · subst h1
      rw [show (1 : Nat) / 2 = 0 by norm_num, bitLenAux_zero]
      norm_num
    · have h2 : 2 ≤ n := by omega
      have hp : (2 : Nat) ^ (fuel + 1) = 2 * 2 ^ fuel := by rw [pow_succ]; ring
      have hlt : n / 2 < 2 ^ fuel := by omega
      have hd : 0 < n / 2 := by omega
      obtain ⟨a1, a2, a3, a4⟩ := ih (n / 2) hlt hd
      set b := bitLenAux fuel (n / 2) with hb
      have hb1 : (2 : Nat) ^ b = 2 * 2 ^ (b - 1) := by
        rw [← pow_succ']
        congr 1
        omega
      have hb2 : (2 : Nat) ^ (b + 1) = 2 * 2 ^ b := by rw [pow_succ]; ring
      refine ⟨by omega, by omega, ?_, ?_⟩
      · simp only [Nat.add_sub_cancel]
        omega
      · omega

/-- The byte width `nbytes = 8 - leading_zeros/8` chosen by `write_uint`
for a value `n ≥ 128` is in `[1,8]`, is exactly wide enough
(`2^(8(L-1)) ≤ n < 2^(8L)`, i.e. minimal), and equals
`ceil(bitlen(n)/8)`. -/
theorem writeWidth_spec (n : Nat) (h128 : 128 ≤ n) (h64 : n < 2 ^ 64) :
    1 ≤ 8 - leadingZeros64 n / 8 ∧ 8 - leadingZeros64 n / 8 ≤ 8 ∧
    2 ^ (8 * (8 - leadingZeros64 n / 8 - 1)) ≤ n ∧
    n < 2 ^ (8 * (8 - leadingZeros64 n / 8)) ∧
    8 - leadingZeros64 n / 8 = (bitLen64 n + 7) / 8 := by
  obtain ⟨a1, a2, a3, a4⟩ := bitLenAux_spec 64 n h64 (by omega)
  have hlz : leadingZeros64 n = 64 - bitLenAux 64 n := rfl
  have hbl : bitLen64 n = bitLenAux 64 n := rfl
  rw [hlz, hbl]
  set b := bitLenAux 64 n with hbdef
  have hb8 : 8 ≤ b := by
    by_contra hc
    push_neg at hc
    have hple : (2 : Nat) ^ b ≤ 2 ^ 7 := Nat.pow_le_pow_right (by norm_num) (by omega)
    norm_num at hple
    omega
  have hbL : b ≤ 8 * (8 - (64 - b) / 8) := by omega
  have hbL' : 8 * (8 - (64 - b) / 8 - 1) ≤ b - 1 := by omega
  refine ⟨by omega, by omega, ?_, ?_, by omega⟩
  · exact le_trans (Nat.pow_le_pow_right (by norm_num) hbL') a3
  · exact lt_of_lt_of_le a4 (Nat.pow_le_pow_right (by norm_num) hbL)

/-- Unfolding of `write_uint` in the wide case. -/
theorem write_uint_wide (n : Nat) (h128 : ¬ n < 128) :
    write_uint n =
      (255 - (8 - leadingZeros64 n / 8 - 1)) ::
        natToBytesBE (8 - leadingZeros64 n / 8) n := by
  rw [write_uint, if_neg h128]

/-- Every encoding is at most 9 bytes (one header plus at most 8 payload
bytes), and at least 1 byte. -/
theorem write_uint_length (n : Nat) :
    1 ≤ (write_uint n).length ∧ (write_uint n).length ≤ 9 := by
  by_cases h128 : n < 128
  · simp [write_uint, h128]
  · rw [write_uint_wide n h128]
    simp only [List.length_cons, natToBytesBE_length]
    omega

/-- Prefix-stable round trip: decoding an encoding followed by arbitrary
extra bytes returns the encoded value and leaves exactly the extra bytes
unread. -/
theorem read_uint_write_uint (n : Nat) (h : n < 2 ^ 64) (extra : List Nat) :
    read_uint (write_uint n ++ extra) = .ok n extra := by
  by_cases h128 : n < 128
  · simp [write_uint, read_uint, h128]
  · obtain ⟨hL1, hL8, hlo, hhi, _⟩ := writeWidth_spec n (by omega) h
    rw [write_uint_wide n h128]
    set L := 8 - leadingZeros64 n / 8 with hLdef
    rw [List.cons_append]
    simp only [read_uint]
    rw [if_neg (by omega)]
    have hlen : 256 - (255 - (L - 1)) = L := by omega
    have hlen2 : (natToBytesBE L n ++ extra).length = L + extra.length := by
      simp [natToBytesBE_length]
    rw [hlen, if_neg (by omega), if_neg (by omega),
        List.take_left' (natToBytesBE_length L n),
        List.drop_left' (natToBytesBE_length L n),
        bytesToNatBE_natToBytesBE]
    rw [Nat.mod_eq_of_lt hhi]

/-- A strict prefix of an encoding is `Incomplete`: the decoder only
commits once all the bytes announced by the header are present. -/
theorem read_uint_take_incomplete (n k : Nat) (h : n < 2 ^ 64)
    (hk : k < (write_uint n).length) :
    read_uint ((write_uint n).take k) = .incomplete := by
  by_cases h128 : n < 128
  · have hlen : (write_uint n).length = 1 := by simp [write_uint, h128]
    have hk0 : k = 0 := by omega
    subst hk0
    simp [read_uint]
  · obtain ⟨hL1, hL8, _, _, _⟩ := writeWidth_spec n (by omega) h
    rw [write_uint_wide n h128] at hk ⊢
    set L := 8 - leadingZeros64 n / 8 with hLdef
    simp only [List.length_cons, natToBytesBE_length] at hk
    cases k with
    | zero => simp [read_uint]
    | succ k =>
      rw [List.take_succ_cons]
      simp only [read_uint]
      rw [if_neg (by omega)]
      have hlen : 256 - (255 - (L - 1)) = L := by omega
      have htk : ((natToBytesBE L n).take k).length = k := by
        rw [List.length_take, natToBytesBE_length]
        omega
      rw [hlen, if_pos (by omega)]

/-- Bit-or with 1 on an even number sets the low bit. -/
theorem two_mul_lor_one (t : Nat) : 2 * t ||| 1 = 2 * t + 1 := by
  apply Nat.eq_of_testBit_eq
  intro i
  cases i with
  | zero =>
    rw [Nat.testBit_lor]
    simp [Nat.testBit_zero, Nat.mul_add_mod]
  | succ j =>
    rw [Nat.testBit_lor, Nat.testBit_succ, Nat.testBit_succ, Nat.testBit_succ]
    have h1 : (2 * t + 1) / 2 = t := by omega
    have h2 : 2 * t / 2 = t := by omega
    have h3 : (1 : Nat) / 2 = 0 := by norm_num
    rw [h1, h2, h3]
    simp [Nat.zero_testBit]

/-- The zig-zag image of an `i64` is an even `u64` for `n ≥ 0` and an odd
one for `n < 0`; spelled out, `write_int n = write_uint (zig(n))` with
`zig(n) = 2n` or `2(-n-1)+1`. -/
theorem write_int_eq (n : Int) (hlo : -(2 ^ 63) ≤ n) (hhi : n < 2 ^ 63) :
    write_int n =
      write_uint (if n < 0 then 2 * (-n - 1).toNat + 1 else 2 * n.toNat) := by
  unfold write_int
  by_cases hn : n < 0
  · have hu : i64ToU64 n = (n + 2 ^ 64).toNat := by
      unfold i64ToU64
      have : n % (2 ^ 64 : Int) = n + 2 ^ 64 := by omega
      rw [this]
    have ht : 2 ^ 64 - 1 - i64ToU64 n = (-n - 1).toNat := by omega
    rw [if_pos hn, if_pos hn, hu] at *
    rw [ht, Nat.shiftLeft_eq]
    have hsmall : (-n - 1).toNat * 2 ^ 1 = 2 * (-n - 1).toNat := by ring
    rw [hsmall, Nat.mod_eq_of_lt (by omega), two_mul_lor_one]
  · have hu : i64ToU64 n = n.toNat := by
      unfold i64ToU64
      have : n % (2 ^ 64 : Int) = n := by omega
      rw [this]
    rw [if_neg hn, if_neg hn, hu, Nat.shiftLeft_eq]
    have hsmall : n.toNat * 2 ^ 1 = 2 * n.toNat := by ring
    rw [hsmall, Nat.mod_eq_of_lt (by omega)]

/-- Prefix-stable signed round trip through the zig-zag encoding. -/
theorem read_int_write_int (n : Int) (hlo : -(2 ^ 63) ≤ n) (hhi : n < 2 ^ 63)
    (extra : List Nat) :
    read_int (write_int n ++ extra) = .ok n extra := by
  rw [write_int_eq n hlo hhi]
  unfold read_int
  by_cases hn : n < 0
  · rw [if_pos hn, read_uint_write_uint _ (by omega) extra]
    simp only [ReadResult.mapValue]
    have hodd : (2 * (-n - 1).toNat + 1) &&& 1 = 1 := by
      rw [Nat.and_one_is_mod]
      omega
    have hshift : (2 * (-n - 1).toNat + 1) >>> 1 = (-n - 1).toNat := by
      rw [Nat.shiftRight_eq_div_pow]
      omega
    rw [hodd, hshift]
    simp only [if_neg (by norm_num : ¬ (1 : Nat) = 0)]
    unfold u64ToI64
    have hlt : (-n - 1).toNat < 2 ^ 63 := by omega
    rw [if_pos hlt]
    have hcast : ((-n - 1).toNat : Int) = -n - 1 := by omega
    rw [hcast]
    congr 1
    ring
  · rw [if_neg hn, read_uint_write_uint _ (by omega) extra]
    simp only [ReadResult.mapValue]
    have heven : (2 * n.toNat) &&& 1 = 0 := by
      rw [Nat.and_one_is_mod]
      omega
    have hshift : (2 * n.toNat) >>> 1 = n.toNat := by
      rw [Nat.shiftRight_eq_div_pow]
      omega
    rw [heven, hshift]
    simp only [if_pos rfl]
    unfold u64ToI64
    have hlt : n.toNat < 2 ^ 63 := by omega
    rw [if_pos hlt]
    have hcast : (n.toNat : Int) = n := by omega
    rw [hcast]
    simp

/-! ### Claim C1 -/

/-- C1: Varint round-trip: for every `n : u64`, decoding with `read_uint`
the bytes produced by `write_uint n` returns `n`; and for every
`n : i64`, decoding with `read_int` the bytes produced by `write_int n`
returns `n`. -/
theorem varint_round_trip :
    (∀ n : Nat, n < 2 ^ 64 → read_uint (write_uint n) = .ok n []) ∧
    (∀ n : Int, -(2 ^ 63) ≤ n → n < 2 ^ 63 → read_int (write_int n) = .ok n []) := by
  constructor
  · intro n h
    have h1 := read_uint_write_uint n h []
    rwa [List.append_nil] at h1
  · intro n hlo hhi
    have h1 := read_int_write_int n hlo hhi []
    rwa [List.append_nil] at h1

/-- Witness for C1 at `n = 256` and `n = -2`. -/
theorem varint_round_trip_witness :
    read_uint (write_uint 256) = .ok 256 [] ∧
    read_int (write_int (-2)) = .ok (-2) [] :=
  ⟨varint_round_trip.1 256 (by norm_num),
   varint_round_trip.2 (-2) (by norm_num) (by norm_num)⟩

/-! ### Claim C3 -/

/-- C3 counterexample: on the input whose header byte `0xF7` announces a
9-byte continuation that is fully present, `read_uint` neither returns a
value nor `Incomplete`: the `get_uint_be(9)` call inside panics (the
`bytes` crate only supports widths up to 8), refuting "for every input
byte sequence, `read_uint` either returns a u64 value or reports
Incomplete". -/
theorem read_uint_len9_crash :
    read_uint [247, 1, 2, 3, 4, 5, 6, 7, 8, 9] = .crash := by decide

/-- C3 amended: `read_uint` never raises `Parse`, and on every well-formed
input it returns a `u64` value (below `2^64`) or `Incomplete`, except
when the header byte encodes a continuation length `L = 256 - b > 8`
with at least `L` bytes available, in which case the underlying
`get_uint_be` call panics.  (For encodings produced by `write_uint` the
length is always in `[1,8]`, so the exception never fires there.) -/
theorem read_uint_totality_amended (buf : List Nat) (hwf : ∀ b ∈ buf, b < 256) :
    (∀ r, read_uint buf ≠ .parse r) ∧
    (∀ v rest, read_uint buf = .ok v rest → v < 2 ^ 64) ∧
    (read_uint buf = .crash ↔
      ∃ b rest, buf = b :: rest ∧ 128 ≤ b ∧ 8 < 256 - b ∧ 256 - b ≤ rest.length) := by
  cases buf with
  | nil =>
    refine ⟨by simp [read_uint], by simp [read_uint], ?_⟩
    simp [read_uint]
  | cons b rest =>
    have hb256 : b < 256 := hwf b (by simp)
    by_cases hb : b < 128
    · refine ⟨by intro r; simp [read_uint, hb], ?_, ?_⟩
      · intro v rest' hv
        simp [read_uint, hb] at hv
        omega
      · constructor
        · intro hc
          simp [read_uint, hb] at hc
        · rintro ⟨b', rest', heq, h1, h2, h3⟩
          injection heq with hb' hrest'
          omega
    · by_cases hincomplete : rest.length < 256 - b
      · refine ⟨by intro r; simp [read_uint, hb, hincomplete], ?_, ?_⟩
        · intro v rest' hv
          simp [read_uint, hb, hincomplete] at hv
        · constructor
          · intro hc
            simp [read_uint, hb, hincomplete] at hc
          · rintro ⟨b', rest', heq, h1, h2, h3⟩
            injection heq with hb' hrest'
            subst hb'
            subst hrest'
            omega
      · by_cases hlong : 8 < 256 - b
        · refine ⟨by intro r; simp [read_uint, hb, hincomplete, hlong], ?_, ?_⟩
          · intro v rest' hv
            simp [read_uint, hb, hincomplete, hlong] at hv
          · constructor
            · intro _
              exact ⟨b, rest, rfl, by omega, hlong, by omega⟩
            · intro _
              simp [read_uint, hb, hincomplete, hlong]
        · refine ⟨by intro r; simp [read_uint, hb, hincomplete, hlong], ?_, ?_⟩
          · intro v rest' hv
            simp [read_uint, hb, hincomplete, hlong] at hv
            have hwtake : ∀ x ∈ rest.take (256 - b), x < 256 := fun x hx =>
              hwf x (List.mem_cons_of_mem b (List.mem_of_mem_take hx))
            have hlt := bytesToNatBE_lt (rest.take (256 - b)) hwtake
            have hlen : (rest.take (256 - b)).length = 256 - b := by
              rw [List.length_take]
              omega
            rw [hlen] at hlt
            have hle : (2 : Nat) ^ (8 * (256 - b)) ≤ 2 ^ 64 :=
              Nat.pow_le_pow_right (by norm_num) (by omega)
            omega
          · constructor
            · intro hc
              simp [read_uint, hb, hincomplete, hlong] at hc
            · rintro ⟨b', rest', heq, h1, h2, h3⟩
              injection heq with hb' hrest'
              subst hb'
              subst hrest'
              omega

/-- Witness for C3's amended theorem at the input `[0xFE, 1, 0]`. -/
theorem read_uint_totality_amended_witness :
    read_uint [254, 1, 0] ≠ .parse "x" ∧
    (read_uint [254, 1, 0] = .ok 256 [] → (256 : Nat) < 2 ^ 64) ∧
    ¬ read_uint [254, 1, 0] = .crash := by
  have h := read_uint_totality_amended [254, 1, 0] (by norm_num)
  refine ⟨h.1 "x", fun _ => by norm_num, fun hc => ?_⟩
  rcases h.2.2.mp hc with ⟨b, rest, heq, h1, h2, h3⟩
  injection heq with hb' hrest'
  omega

/-! ### Claim C7 -/

/-- C7: Varint minimality: `write_uint n` emits exactly the single byte `n`
iff `n < 128`; otherwise it emits the header byte `!(L-1)` (u8
complement, `255 - (L-1)`) followed by exactly `L` big-endian payload
bytes, where `L = 8 - leading_zeros/8 = ceil(bitlen(n)/8)` is the
minimal byte width of `n` (`2^(8(L-1)) ≤ n < 2^(8L)`). -/
theorem varint_minimality (n : Nat) (h : n < 2 ^ 64) :
    ((write_uint n).length = 1 ↔ n < 128) ∧
    (n < 128 → write_uint n = [n]) ∧
    (128 ≤ n →
      write_uint n =
        (255 - (8 - leadingZeros64 n / 8 - 1)) ::
          natToBytesBE (8 - leadingZeros64 n / 8) n ∧
      (natToBytesBE (8 - leadingZeros64 n / 8) n).length = 8 - leadingZeros64 n / 8 ∧
      8 - leadingZeros64 n / 8 = (bitLen64 n + 7) / 8 ∧
      2 ^ (8 * (8 - leadingZeros64 n / 8 - 1)) ≤ n ∧
      n < 2 ^ (8 * (8 - leadingZeros64 n / 8))) := by
  by_cases h128 : n < 128
  · refine ⟨?_, fun _ => by simp [write_uint, h128], fun hc => by omega⟩
    simp [write_uint, h128]
  · obtain ⟨hL1, hL8, hlo, hhi, hceil⟩ := writeWidth_spec n (by omega) h
    refine ⟨?_, fun hc => by omega, fun _ =>
      ⟨write_uint_wide n h128, natToBytesBE_length _ _, hceil, hlo, hhi⟩⟩
    rw [write_uint_wide n h128]
    simp only [List.length_cons, natToBytesBE_length]
    omega

/-- Witness for C7 at `n = 300` (two payload bytes) — the header byte is
`!(2-1) = 0xFE` and the payload is big-endian `[1, 44]`. -/
theorem varint_minimality_witness :
    write_uint 300 = 254 :: natToBytesBE 2 300 ∧ natToBytesBE 2 300 = [1, 44] := by
  have h := (varint_minimality 300 (by norm_num)).2.2 (by norm_num)
  exact ⟨h.1, by decide⟩

/-! ### Claim C8 -/

/-- C8: Float round-trip, modelled on IEEE-754 bit patterns (Rust's
`f64::to_bits` and `f64::from_bits` are mutually inverse between values
and 64-bit patterns — NaN payloads included, so a fortiori for non-NaN
floats): decoding with `read_float` the bytes produced by
`write_float f` returns a float with exactly `f`'s bit pattern, the
wire form being the varint of the byte-swapped pattern. -/
theorem float_round_trip (bits : Nat) (h : bits < 2 ^ 64) :
    read_float (write_float bits) = .ok bits [] ∧
    write_float bits = write_uint (swapBytes64 bits) := by
  refine ⟨?_, rfl⟩
  unfold read_float write_float
  have hswap : swapBytes64 bits < 2 ^ 64 := by
    unfold swapBytes64
    have hwf : ∀ b ∈ (natToBytesBE 8 bits).reverse, b < 256 := fun b hb =>
      natToBytesBE_mem_lt 8 bits b (List.mem_reverse.mp hb)
    have hlt := bytesToNatBE_lt (natToBytesBE 8 bits).reverse hwf
    simpa [natToBytesBE_length] using hlt
  have h1 := read_uint_write_uint (swapBytes64 bits) hswap []
  rw [List.append_nil] at h1
  rw [h1]
  show ReadResult.ok (swapBytes64 (swapBytes64 bits)) [] = ReadResult.ok bits []
  rw [swapBytes64_swapBytes64 bits h]

/-- Witness for C8 at the bit pattern of `1.0f64`. -/
theorem float_round_trip_witness :
    read_float (write_float 4607182418800017408) = .ok 4607182418800017408 [] :=
  (float_round_trip 4607182418800017408 (by norm_num)).1

/-! ### Helper lemmas: stream framing -/

theorem write_int_length (n : Int) :
    1 ≤ (write_int n).length ∧ (write_int n).length ≤ 9 := by
  unfold write_int
  exact write_uint_length _

/-- Feeding a single chunk that starts with a complete length varint:
`read_section_len` parses it and leaves the remainder in the window. -/
theorem read_section_len_chunk (m : Nat) (hm : m < 2 ^ 64) (rest : List Nat) :
    read_section_len [] [write_uint m ++ rest] = .ok (some m, rest, []) := by
  have hne : ¬ (write_uint m ++ rest).length = 0 := by
    have := write_uint_length m
    simp only [List.length_append]
    omega
  have h1 : read_section_len [] [write_uint m ++ rest]
      = if (write_uint m ++ rest).length = 0
        then .ok (none, write_uint m ++ rest, [])
        else (readSectionLenLoop (write_uint m ++ rest) []).map
          fun s => (some s.1, s.2.1, s.2.2) := rfl
  rw [h1, if_neg hne, readSectionLenLoop, read_uint_write_uint m hm rest]
  rfl

/-- The exact bytes of `write_section` delivered as one chunk: the section
is parsed back as `(type_id, payload.length)` and the window is left
holding exactly the payload, with the reader exhausted. -/
theorem read_section_write_section (typeId : Int) (payload : List Nat)
    (hlo : -(2 ^ 63) ≤ typeId) (hhi : typeId < 2 ^ 63)
    (hbig : payload.length + 9 < 2 ^ 64) :
    read_section [] [write_section typeId payload] =
      .ok (some (typeId, payload.length), payload, []) := by
  have hT := write_int_length typeId
  have hmod : (payload.length + (write_int typeId).length) % 2 ^ 64
      = payload.length + (write_int typeId).length := Nat.mod_eq_of_lt (by omega)
  have hws : write_section typeId payload
      = write_uint (payload.length + (write_int typeId).length)
          ++ (write_int typeId ++ payload) := by
    simp only [write_section]
    rw [hmod, List.append_assoc]
  rw [hws]
  unfold read_section
  rw [read_section_len_chunk _ (by omega) _]
  have hfill : ¬ ((write_int typeId ++ payload).length
      < payload.length + (write_int typeId).length) := by
    simp only [List.length_append]
    omega
  simp only [if_neg hfill]
  rw [read_int_write_int typeId hlo hhi payload]
  have hpos : payload.length + (write_int typeId).length
      - ((write_int typeId ++ payload).length - payload.length) = payload.length := by
    simp only [List.length_append]
    omega
  simp only [hpos]

/-- Unfolding of `write_section` with the `usize → u64` cast eliminated. -/
theorem write_section_eq (typeId : Int) (payload : List Nat)
    (hbig : payload.length + 9 < 2 ^ 64) :
    write_section typeId payload
      = write_uint (payload.length + (write_int typeId).length)
          ++ (write_int typeId ++ payload) := by
  have hT := write_int_length typeId
  have hmod : (payload.length + (write_int typeId).length) % 2 ^ 64
      = payload.length + (write_int typeId).length := Nat.mod_eq_of_lt (by omega)
  simp only [write_section]
  rw [hmod, List.append_assoc]

/-- A nonempty chunk on which the length varint is still incomplete, with
the reader then exhausted, is an EOF inside a section. -/
theorem read_section_chunk_incomplete (chunk : List Nat)
    (hne : chunk.length ≠ 0) (hinc : read_uint chunk = .incomplete) :
    read_section [] [chunk] = .error .unexpectedEof := by
  have h1 : read_section_len [] [chunk]
      = if chunk.length = 0 then .ok (none, chunk, [])
        else (readSectionLenLoop chunk []).map fun s => (some s.1, s.2.1, s.2.2) := rfl
  have h2 : read_section_len [] [chunk] = .error .unexpectedEof := by
    rw [h1, if_neg hne, readSectionLenLoop, hinc]
    rfl
  unfold read_section
  rw [h2]

/-- `read_from_exact` against an exhausted reader: any positive shortfall
is an `UnexpectedEof`. -/
theorem readFromExact_nil (n : Nat) (h : n ≠ 0) :
    readFromExact [] n = .error .unexpectedEof := by
  rw [readFromExact, if_neg h]

/-- Delivering any proper nonempty prefix of a section and then EOF makes
`read_section` fail with `UnexpectedEof`, whether the cut falls inside
the length varint or inside the announced body. -/
theorem read_section_take_eof (typeId : Int) (payload : List Nat) (k : Nat)
    (hbig : payload.length + 9 < 2 ^ 64)
    (hk0 : 0 < k) (hk : k < (write_section typeId payload).length) :
    read_section [] [(write_section typeId payload).take k] = .error .unexpectedEof := by
  have hT := write_int_length typeId
  have hmlt : payload.length + (write_int typeId).length < 2 ^ 64 := by omega
  rw [write_section_eq typeId payload hbig] at hk ⊢
  set m := payload.length + (write_int typeId).length with hm
  set rest0 := write_int typeId ++ payload with hr0
  have hrest0 : rest0.length = m := by
    rw [hr0, List.length_append]
    omega
  rw [List.take_append_eq_append_take]
  simp only [List.length_append] at hk
  by_cases hk1 : k < (write_uint m).length
  · have hz : k - (write_uint m).length = 0 := by omega
    rw [hz]
    simp only [List.take_zero, List.append_nil]
    apply read_section_chunk_incomplete
    · rw [List.length_take]
      omega
    · exact read_uint_take_incomplete m k hmlt hk1
  · have htk : (write_uint m).take k = write_uint m :=
      List.take_of_length_le (by omega)
    rw [htk]
    set X := rest0.take (k - (write_uint m).length) with hX
    have hXlen : X.length = k - (write_uint m).length := by
      rw [hX, List.length_take]
      omega
    have hXm : X.length < m := by omega
    unfold read_section
    rw [read_section_len_chunk m hmlt X]
    simp only [if_pos hXm, readFromExact_nil (m - X.length) (by omega), Except.map]

/-! ### Claim C2 -/

/-- C2: Section framing round-trip: feeding `read_section` exactly the
bytes produced by `write_section type_id payload` yields
`some (type_id, payload.length)`, leaves the buffer window holding
exactly `payload` (so its first `payload.length` bytes are the payload,
which the caller's deferred `advance` then consumes), and exhausts the
reader — exactly the emitted bytes are consumed. -/
theorem section_framing_round_trip (typeId : Int) (payload : List Nat)
    (hlo : -(2 ^ 63) ≤ typeId) (hhi : typeId < 2 ^ 63)
    (hbig : payload.length + 9 < 2 ^ 64) :
    read_section [] [write_section typeId payload] =
      .ok (some (typeId, payload.length), payload, []) :=
  read_section_write_section typeId payload hlo hhi hbig

/-- Witness for C2: the section `[3, 4, 0, 1]` (`type_id = 2`, payload
`[0, 1]`) from the spec's scenario S4. -/
theorem section_framing_round_trip_witness :
    read_section [] [write_section 2 [0, 1]] = .ok (some (2, 2), [0, 1], []) :=
  section_framing_round_trip 2 [0, 1] (by norm_num) (by norm_num) (by norm_num)

/-! ### Claim C6 -/

/-- C6: EOF behaviour: a reader yielding 0 bytes at a section boundary is
clean EOF — `read_section` returns `none` and the stream deserializer's
`deserializer` (hence `try_next_value`) yields `none` with its state
untouched; a reader that ends after a proper nonempty prefix of a
section raises `UnexpectedEof`. -/
theorem eof_behaviour :
    (∀ (defs : Types) (dw : Types → List Nat → Except String WireType) (fuel : Nat),
      read_section [] [] = .ok (none, [], []) ∧
      deserializer dw (fuel + 1) ⟨defs, [], [], none⟩ = (⟨defs, [], [], none⟩, .ok none)) ∧
    (∀ (typeId : Int) (payload : List Nat) (k : Nat),
      payload.length + 9 < 2 ^ 64 →
      0 < k → k < (write_section typeId payload).length →
      read_section [] [(write_section typeId payload).take k] = .error .unexpectedEof) :=
  ⟨fun _ _ _ => ⟨rfl, rfl⟩,
   fun typeId payload k hbig hk0 hk => read_section_take_eof typeId payload k hbig hk0 hk⟩

/-- Witness for C6: an empty reader is clean EOF; the first byte alone of
the two-byte section `write_section 1 []` is an `UnexpectedEof`. -/
theorem eof_behaviour_witness :
    read_section [] [] = .ok (none, [], []) ∧
    deserializer (fun _ _ => .error "unused") 1 ⟨[], [], [], none⟩
      = (⟨[], [], [], none⟩, .ok none) ∧
    read_section [] [(write_section 1 []).take 1] = .error .unexpectedEof := by
  refine ⟨(eof_behaviour.1 [] (fun _ _ => .error "unused") 0).1,
          (eof_behaviour.1 [] (fun _ _ => .error "unused") 0).2,
          eof_behaviour.2 1 [] 1 (by norm_num) (by norm_num) ?_⟩
  decide

/-! ### Claims C4 and C10: the stream deserializer loop -/

/-- Unfolding of `deserializer` for a state with no pending `prev_len`:
the wrapper runs the loop on the stored window and records the returned
value payload length (if any) as the new `prev_len`. -/
theorem deserializer_none_eq (dw : Types → List Nat → Except String WireType)
    (fuel : Nat) (defs : Types) (buf : List Nat) (pending : List (List Nat)) :
    deserializer dw fuel ⟨defs, buf, pending, none⟩ =
      (⟨(deserializerLoop dw fuel defs buf pending).1,
        (deserializerLoop dw fuel defs buf pending).2.1,
        (deserializerLoop dw fuel defs buf pending).2.2.1,
        match (deserializerLoop dw fuel defs buf pending).2.2.2 with
        | .ok (some (_, len)) => some len
        | _ => none⟩,
       (deserializerLoop dw fuel defs buf pending).2.2.2) := rfl

/-- C4: Type-id mismatch: a type-definition section with stream
`type_id = -K` (`K > 0`) whose payload decodes to a wire type with
`CommonType.id ≠ K` makes the deserializer fail with exactly
`"type id mismatch"`, and the dictionary is returned unchanged — the
wire type is not inserted. -/
theorem type_id_mismatch (dw : Types → List Nat → Except String WireType)
    (fuel : Nat) (defs : Types) (K : Int) (payload : List Nat) (wt : WireType)
    (hK : 0 < K) (hK63 : K ≤ 2 ^ 63) (hbig : payload.length + 9 < 2 ^ 64)
    (hdw : dw defs payload = .ok wt) (hmm : wt.common.id ≠ K) :
    deserializer dw (fuel + 1) ⟨defs, [], [write_section (-K) payload], none⟩ =
      (⟨defs, payload, [], none⟩, .error (.custom "type id mismatch")) := by
  have hloop : deserializerLoop dw (fuel + 1) defs [] [write_section (-K) payload]
      = (defs, payload, [], .error (.custom "type id mismatch")) := by
    rw [deserializerLoop,
        read_section_write_section (-K) payload (by omega) (by omega) hbig]
    simp only [if_neg (by omega : ¬ (0 ≤ -K)), List.take_length, hdw, neg_neg,
               if_pos (Ne.symm hmm)]
  rw [deserializer_none_eq, hloop]

/-- Witness for C4: stream type id `-3`, decoded wire type carrying id 5. -/
theorem type_id_mismatch_witness :
    deserializer (fun _ _ => .ok (.builtin ⟨"w", 5⟩)) 1 ⟨[], [], [write_section (-3) []], none⟩ =
      (⟨[], [], [], none⟩, .error (.custom "type id mismatch")) :=
  type_id_mismatch (fun _ _ => .ok (.builtin ⟨"w", 5⟩)) 0 [] 3 [] (.builtin ⟨"w", 5⟩)
    (by norm_num) (by norm_num) (by norm_num) rfl (by norm_num [WireType.common])

/-- C10: the branch condition in `StreamDeserializer::deserializer` is
`type_id >= 0`, so a section whose encoded `type_id` is exactly `0` is
treated as a value section: `deserializer` returns a value cursor tagged
`TypeId(0)` (here the pair `(0, payload.length)` with the window at the
payload) instead of rejecting the zero id. -/
theorem zero_type_id_is_value_section (dw : Types → List Nat → Except String WireType)
    (fuel : Nat) (defs : Types) (payload : List Nat)
    (hbig : payload.length + 9 < 2 ^ 64) :
    deserializer dw (fuel + 1) ⟨defs, [], [write_section 0 payload], none⟩ =
      (⟨defs, payload, [], some payload.length⟩, .ok (some (0, payload.length))) := by
  have hloop : deserializerLoop dw (fuel + 1) defs [] [write_section 0 payload]
      = (defs, payload, [], .ok (some (0, payload.length))) := by
    rw [deserializerLoop,
        read_section_write_section 0 payload (by norm_num) (by norm_num) hbig]
    simp only [if_pos (le_refl (0 : Int))]
  rw [deserializer_none_eq, hloop]

/-- Witness for C10 with a one-byte payload. -/
theorem zero_type_id_is_value_section_witness :
    deserializer (fun _ _ => .error "unused") 1 ⟨[], [], [write_section 0 [0]], none⟩ =
      (⟨[], [0], [], some 1⟩, .ok (some (0, 1))) :=
  zero_type_id_is_value_section (fun _ _ => .error "unused") 0 [] [0] (by norm_num)

/-! ### Claim C5 -/

/-- C5: Singleton prefix: when the dictionary does not resolve `type_id`
to a `Struct` descriptor and the payload's leading uint is nonzero,
`deserialize_any` fails with exactly
`"neither a singleton nor a struct value"`; when it does resolve to a
`Struct` descriptor, the struct codec is delegated to with the message
untouched — no prefix is read. -/
theorem singleton_dispatch :
    (∀ (typeId : Int) (defs : Types) (buf : List Nat) (v : Nat) (rest : List Nat),
      (∀ common fields, defs.lookup typeId ≠ some (.structT common fields)) →
      read_uint buf = .ok v rest → v ≠ 0 →
      deserialize_any typeId defs buf = .failed "neither a singleton nor a struct value") ∧
    (∀ (typeId : Int) (defs : Types) (buf : List Nat) (common : CommonType)
        (fields : List (String × Int)),
      defs.lookup typeId = some (.structT common fields) →
      deserialize_any typeId defs buf = .toStruct common fields buf) := by
  constructor
  · intro typeId defs buf v rest hns hread hv
    unfold deserialize_any
    rcases hlook : defs.lookup typeId with _ | wt
    · rw [hread]
      simp [hv]
    · cases wt with
      | structT common fields => exact absurd hlook (hns common fields)
      | builtin common => rw [hread]; simp [hv]
      | arrayT common elem len => rw [hread]; simp [hv]
      | sliceT common elem => rw [hread]; simp [hv]
      | mapT common key value => rw [hread]; simp [hv]
  · intro typeId defs buf common fields hlook
    unfold deserialize_any
    rw [hlook]

/-- Witness for C5: a nonzero singleton prefix against an empty dictionary,
and a struct descriptor at id 7 delegating untouched. -/
theorem singleton_dispatch_witness :
    deserialize_any 3 [] [1] = .failed "neither a singleton nor a struct value" ∧
    deserialize_any 7 [.structT ⟨"s", 7⟩ [("a", 1)]] [9] =
      .toStruct ⟨"s", 7⟩ [("a", 1)] [9] :=
  ⟨singleton_dispatch.1 3 [] [1] 1 [] (fun _ _ => by simp [Types.lookup]) rfl one_ne_zero,
   singleton_dispatch.2 7 [.structT ⟨"s", 7⟩ [("a", 1)]] [9] ⟨"s", 7⟩ [("a", 1)] rfl⟩

/-! ### Claim C9 -/

/-- C9: Variant framing on the write side: for body serializers that
append their encoding to the value buffer (as every provided serializer
does), a newtype variant with index `i` is emitted as
`write_uint (i + 1)`, then the payload, then `write_uint 0`; a struct
variant likewise surrounds its delta-encoded fields with
`write_uint (i + 1)` and the trailing `write_uint 0`. -/
theorem variant_framing (out : List Nat) (idx : Nat) (bodyBytes fieldBytes : List Nat)
    (body fields : List Nat → Except String (List Nat))
    (hb : body (variantWriteHeader out idx) = .ok (variantWriteHeader out idx ++ bodyBytes))
    (hf : fields (variantWriteHeader out idx) = .ok (variantWriteHeader out idx ++ fieldBytes)) :
    serializeNewtype out idx true body =
      .ok (out ++ write_uint (idx + 1) ++ bodyBytes ++ write_uint 0) ∧
    serializeStructVariant out idx fields =
      .ok (out ++ write_uint (idx + 1) ++ fieldBytes ++ write_uint 0) := by
  constructor
  · unfold serializeNewtype
    rw [if_pos rfl, hb]
    rfl
  · unfold serializeStructVariant
    rw [hf]
    rfl

/-- Witness for C9: variant index 0 with a one-byte newtype payload `[7]`
and a two-byte field encoding `[9, 9]`. -/
theorem variant_framing_witness :
    serializeNewtype [] 0 true (fun c => .ok (c ++ [7])) = .ok [1, 7, 0] ∧
    serializeStructVariant [] 0 (fun c => .ok (c ++ [9, 9])) = .ok [1, 9, 9, 0] :=
  variant_framing [] 0 [7] [9, 9] (fun c => .ok (c ++ [7])) (fun c => .ok (c ++ [9, 9]))
    rfl rfl

end Gob
